import Mathlib

/-!
# Verification of the `myfeeds` incremental polling / deduplication engine

Shallow embedding of `myfeeds/main.py` (class `Feeder`): the per-source
dedup policies (`prepare_weibo_feed`, `prepare_bilibili_feed`,
`prepare_youku_feed`), the notification `push`, and the per-source task
loops (`weibo_task`, `bilibili_task`, `youku_task`).

Modelling conventions:
- Python mutable module state (the `weibo_marker` / `bilibili_marker` /
  `youku_marker` context variables) is passed explicitly: each embedded
  function takes the marker value before the call and returns the value
  after the call.
- `datetime.now().timestamp()` is passed in as an explicit `now : Int`
  argument (timestamps are modelled as integers; only their linear order
  matters to the code).
- Python exceptions that escape a function are modelled with `Except`:
  `Except.error` is a raised exception propagating to the caller.
- A fetch function's result is `Option (List _)`: `some items` when the
  `try` body succeeded (the parsed list, possibly empty), `none` when an
  exception was caught and logged, making the Python function return `None`.
-/

namespace MyFeeds

/-- A parsed weibo status (`Feeder.parse_weibo_status`): the fields the
dedup policy reads (`timestamp`) plus an opaque display field. -/
structure WeiboStatus where
  timestamp : Int
  text : String
  deriving Repr, DecidableEq

/-- A parsed bilibili submission (`Feeder.parse_bilibili_upunuxi_submission`):
the `timestamp` field read by the dedup policy plus an opaque display field. -/
structure BilibiliSubmission where
  timestamp : Int
  title : String
  deriving Repr, DecidableEq

/-- A parsed youku video (`Feeder.parse_youku_video`): the `title` field read
by the dedup policy plus an opaque display field. -/
structure YoukuVideo where
  title : String
  link : String
  deriving Repr, DecidableEq

/-- Modelled from the spec: the Jinja2 templates (`weibo_statuses.md`,
`bilibili_submissions.md`, `youku_videos.md`) are not under `src/`; the spec
describes the Digest Renderer as an external collaborator turning new items
into display text, a no-op (empty text) when the new-item list is empty. -/
def renderWeibo (statuses : List WeiboStatus) : String :=
  String.intercalate "\n" (statuses.map (fun s => s.text))

/-- Modelled from the spec: renderer for bilibili submissions (template not
under `src/`); empty text on an empty item list. -/
def renderBilibili (submissions : List BilibiliSubmission) : String :=
  String.intercalate "\n" (submissions.map (fun s => s.title))

/-- Modelled from the spec: renderer for youku videos (template not under
`src/`); empty text on an empty item list. -/
def renderYouku (videos : List YoukuVideo) : String :=
  String.intercalate "\n" (videos.map (fun v => v.title))

/-- Insert `a` into a descending-sorted list, before the first element whose
key does not exceed `a`'s key.  Building block of the stable descending sort
below. -/
def insertKeyDesc {α : Type} (key : α → Int) (a : α) : List α → List α
  | [] => [a]
  | b :: l => if key b ≤ key a then a :: b :: l else b :: insertKeyDesc key a l

/-- Python `sorted(xs, key=key, reverse=True)`: a stable sort, newest first.
Python's Timsort and this insertion sort are extensionally equal, since a
stable sort is uniquely determined by the comparator; insertion sort is used
so the embedding reduces inside the kernel. -/
def sortKeyDesc {α : Type} (key : α → Int) : List α → List α
  | [] => []
  | a :: l => insertKeyDesc key a (sortKeyDesc key l)

/-- `sorted(statuses, key=lambda s: s["timestamp"], reverse=True)`. -/
def sortWeiboDesc (statuses : List WeiboStatus) : List WeiboStatus :=
  sortKeyDesc (fun s => s.timestamp) statuses

/-- `sorted(submissions, key=lambda s: s["timestamp"], reverse=True)`. -/
def sortBilibiliDesc (submissions : List BilibiliSubmission) : List BilibiliSubmission :=
  sortKeyDesc (fun s => s.timestamp) submissions

/-- `Feeder.prepare_weibo_feed` (main.py lines 62-73).  Input: the parsed
statuses and the current `weibo_marker`; `now` is `datetime.now().timestamp()`.
Output: the filtered new-item list (the local `statuses` variable that gets
rendered), the marker value after the call, and the returned feed string. -/
def prepare_weibo_feed (statuses : List WeiboStatus) (marker : Option Int)
    (now : Int) : List WeiboStatus × Option Int × String :=
  if statuses.length = 0 then
    ([], marker, "")
  else
    let sorted := sortWeiboDesc statuses
    let selected :=
      match marker with
      | none => sorted.take 1
      | some m => sorted.filter (fun s => decide (s.timestamp > m))
    (selected, some now, renderWeibo selected)

/-- `Feeder.prepare_bilibili_feed` (main.py lines 106-119), same structure as
the weibo policy. -/
def prepare_bilibili_feed (submissions : List BilibiliSubmission)
    (marker : Option Int) (now : Int) :
    List BilibiliSubmission × Option Int × String :=
  if submissions.length = 0 then
    ([], marker, "")
  else
    let sorted := sortBilibiliDesc submissions
    let selected :=
      match marker with
      | none => sorted.take 1
      | some m => sorted.filter (fun s => decide (s.timestamp > m))
    (selected, some now, renderBilibili selected)

/-- The `for v in targets: if v["title"] == marker: break; videos.append(v)`
loop inside `Feeder.prepare_youku_feed`: collect items front-to-back until the
first whose title equals the marker (exclusive). -/
def youkuCollect (m : String) : List YoukuVideo → List YoukuVideo
  | [] => []
  | v :: rest => if v.title = m then [] else v :: youkuCollect m rest

/-- `Feeder.prepare_youku_feed` (main.py lines 158-174).  No sorting; marker
is a title string; the marker is only overwritten (`youku_marker.set`) when at
least one video was collected. -/
def prepare_youku_feed (videos : List YoukuVideo) (marker : Option String) :
    List YoukuVideo × Option String × String :=
  if videos.length = 0 then
    ([], marker, "")
  else
    let selected :=
      match marker with
      | none => videos.take 1
      | some m => youkuCollect m videos
    let marker' :=
      match selected with
      | [] => marker
      | v :: _ => some v.title
    (selected, marker', renderYouku selected)

/-- A Python exception escaping a function in the task loops. -/
inductive PyExc where
  /-- `TypeError`, e.g. iterating over `None`. -/
  | typeError : PyExc
  /-- `httpx.HTTPStatusError` raised by `Response.raise_for_status()`. -/
  | httpStatusError : Nat → PyExc
  deriving Repr, DecidableEq

/-- `httpx.Response.raise_for_status()` inside `Feeder.request` (main.py
line 238): raises `HTTPStatusError` unless the status code is a 2xx success. -/
def raise_for_status (statusCode : Nat) : Except PyExc Unit :=
  if 200 ≤ statusCode ∧ statusCode < 300 then Except.ok ()
  else Except.error (PyExc.httpStatusError statusCode)

/-- `Feeder.push` (main.py lines 186-193): returns immediately on a falsy
(empty) feed string; otherwise performs the notification request, whose
`raise_for_status` propagates an exception on a non-2xx response.
`pushStatus` is the status code of the push endpoint's response.  Returns
whether a request was actually sent. -/
def push (pushStatus : Nat) (feed : String) : Except PyExc Bool :=
  if feed = "" then Except.ok false
  else do
    let _ ← raise_for_status pushStatus
    Except.ok true

/-- External inputs of one cycle of a timestamp-based task loop: the fetch
outcome (`none` = exception caught inside the fetch helper, which then
returns Python `None`), the wall-clock time, and the push endpoint's
response status. -/
structure WeiboCycleEnv where
  fetched : Option (List WeiboStatus)
  now : Int
  pushStatus : Nat
  deriving Repr

/-- One iteration of the `while True:` body of `Feeder.weibo_task`
(main.py lines 75-84), sleep omitted.  `if statuses:` guards the whole
prepare-and-push block, so both a `None` (failed fetch) and an empty list
make the cycle a no-op.  Returns the marker after the cycle and whether a
push request was sent. -/
def weibo_cycle (env : WeiboCycleEnv) (marker : Option Int) :
    Except PyExc (Option Int × Bool) :=
  match env.fetched with
  | none => Except.ok (marker, false)
  | some [] => Except.ok (marker, false)
  | some statuses =>
    let r := prepare_weibo_feed statuses marker env.now
    match push env.pushStatus r.2.2 with
    | Except.ok sent => Except.ok (r.2.1, sent)
    | Except.error e => Except.error e

/-- External inputs of one bilibili cycle. -/
structure BilibiliCycleEnv where
  fetched : Option (List BilibiliSubmission)
  now : Int
  pushStatus : Nat
  deriving Repr

/-- One iteration of the `while True:` body of `Feeder.bilibili_task`
(main.py lines 121-131), sleep omitted.  There is no guard on the fetch
result: `for submission in submissions:` iterates the value returned by
`fetch_bilibili_upunuxi_submissions`, which is `None` after a caught fetch
exception — iterating `None` raises `TypeError`, which nothing in the task
catches. -/
def bilibili_cycle (env : BilibiliCycleEnv) (marker : Option Int) :
    Except PyExc (Option Int × Bool) :=
  match env.fetched with
  | none => Except.error PyExc.typeError
  | some submissions =>
    let r := prepare_bilibili_feed submissions marker env.now
    match push env.pushStatus r.2.2 with
    | Except.ok sent => Except.ok (r.2.1, sent)
    | Except.error e => Except.error e

/-- External inputs of one youku cycle. -/
structure YoukuCycleEnv where
  fetched : Option (List YoukuVideo)
  pushStatus : Nat
  deriving Repr

/-- One iteration of the `while True:` body of `Feeder.youku_task`
(main.py lines 176-184), sleep omitted.  Like the bilibili task, it iterates
the fetch result without a guard, so a failed fetch (`None`) raises
`TypeError`. -/
def youku_cycle (env : YoukuCycleEnv) (marker : Option String) :
    Except PyExc (Option String × Bool) :=
  match env.fetched with
  | none => Except.error PyExc.typeError
  | some videos =>
    let r := prepare_youku_feed videos marker
    match push env.pushStatus r.2.2 with
    | Except.ok sent => Except.ok (r.2.1, sent)
    | Except.error e => Except.error e

/-- Run the weibo task loop over a list of per-cycle environments.  An
uncaught exception terminates the loop (there is no handler around the
`while True:` body).  Returns the number of completed cycles and the
exception that ended the loop, if any. -/
def weibo_loop (marker : Option Int) :
    List WeiboCycleEnv → Nat × Option PyExc
  | [] => (0, none)
  | env :: rest =>
    match weibo_cycle env marker with
    | Except.error e => (0, some e)
    | Except.ok (marker', _) =>
      let r := weibo_loop marker' rest
      (r.1 + 1, r.2)

/-- Run the bilibili task loop over a list of per-cycle environments;
an uncaught exception terminates the loop. -/
def bilibili_loop (marker : Option Int) :
    List BilibiliCycleEnv → Nat × Option PyExc
  | [] => (0, none)
  | env :: rest =>
    match bilibili_cycle env marker with
    | Except.error e => (0, some e)
    | Except.ok (marker', _) =>
      let r := bilibili_loop marker' rest
      (r.1 + 1, r.2)

/-- Run the youku task loop over a list of per-cycle environments;
an uncaught exception terminates the loop. -/
def youku_loop (marker : Option String) :
    List YoukuCycleEnv → Nat × Option PyExc
  | [] => (0, none)
  | env :: rest =>
    match youku_cycle env marker with
    | Except.error e => (0, some e)
    | Except.ok (marker', _) =>
      let r := youku_loop marker' rest
      (r.1 + 1, r.2)

/-- The marker evolution and per-cycle new-item lists of successive weibo
dedup calls: one entry of the input per cycle, holding the parsed statuses
of that cycle and the wall-clock time at which the cycle stamps the marker. -/
def weiboPrepareRun (marker : Option Int) :
    List (List WeiboStatus × Int) → List (List WeiboStatus)
  | [] => []
  | (statuses, now) :: rest =>
    let r := prepare_weibo_feed statuses marker now
    r.1 :: weiboPrepareRun r.2.1 rest

/-! ## Helper lemmas -/

/-- Sanity check of the youku policy on the spec's boundary-scan example. -/
example :
    prepare_youku_feed
      [⟨"k1", "l1"⟩, ⟨"k2", "l2"⟩, ⟨"k3", "l3"⟩, ⟨"k4", "l4"⟩] (some "k3")
      = ([⟨"k1", "l1"⟩, ⟨"k2", "l2"⟩], some "k1", "k1\nk2") := by decide

example :
    prepare_weibo_feed [⟨100, "a"⟩, ⟨300, "b"⟩, ⟨200, "c"⟩] (some 150) 999
      = ([⟨300, "b"⟩, ⟨200, "c"⟩], some 999, "b\nc") := by decide

example :
    prepare_weibo_feed [⟨100, "a"⟩, ⟨300, "b"⟩, ⟨200, "c"⟩] none 999
      = ([⟨300, "b"⟩], some 999, "b") := by decide

theorem mem_insertKeyDesc {α : Type} {key : α → Int} {a v : α} :
    ∀ {l : List α}, v ∈ insertKeyDesc key a l ↔ v = a ∨ v ∈ l := by
  intro l
  induction l with
  | nil => simp [insertKeyDesc]
  | cons b l ih =>
    by_cases hb : key b ≤ key a
    · simp [insertKeyDesc, hb]
    · simp only [insertKeyDesc, if_neg hb, List.mem_cons, ih]
      tauto

theorem mem_sortKeyDesc {α : Type} {key : α → Int} {v : α} :
    ∀ {l : List α}, v ∈ sortKeyDesc key l ↔ v ∈ l := by
  intro l
  induction l with
  | nil => simp [sortKeyDesc]
  | cons a l ih =>
    simp only [sortKeyDesc, mem_insertKeyDesc, ih, List.mem_cons]

theorem insertKeyDesc_pairwise {α : Type} {key : α → Int} {a : α} :
    ∀ {l : List α}, l.Pairwise (fun x y => key y ≤ key x) →
      (insertKeyDesc key a l).Pairwise (fun x y => key y ≤ key x) := by
  intro l
  induction l with
  | nil => intro _; simp [insertKeyDesc]
  | cons b l ih =>
    intro hp
    rcases List.pairwise_cons.mp hp with ⟨hb, hl⟩
    by_cases hba : key b ≤ key a
    · rw [insertKeyDesc, if_pos hba]
      refine List.pairwise_cons.mpr ⟨?_, hp⟩
      intro u hu
      rcases List.mem_cons.mp hu with h | h
      · exact h ▸ hba
      · exact le_trans (hb u h) hba
    · rw [insertKeyDesc, if_neg hba]
      refine List.pairwise_cons.mpr ⟨?_, ih hl⟩
      intro u hu
      rcases mem_insertKeyDesc.mp hu with h | h
      · exact h ▸ le_of_lt (lt_of_not_le hba)
      · exact hb u h

theorem sortKeyDesc_pairwise {α : Type} {key : α → Int} :
    ∀ {l : List α}, (sortKeyDesc key l).Pairwise (fun x y => key y ≤ key x) := by
  intro l
  induction l with
  | nil => simp [sortKeyDesc]
  | cons a l ih => exact insertKeyDesc_pairwise ih

theorem sortKeyDesc_eq_self {α : Type} {key : α → Int} :
    ∀ {l : List α}, l.Pairwise (fun x y => key y ≤ key x) →
      sortKeyDesc key l = l := by
  intro l
  induction l with
  | nil => intro _; rfl
  | cons a l ih =>
    intro hp
    rcases List.pairwise_cons.mp hp with ⟨ha, hl⟩
    rw [sortKeyDesc, ih hl]
    cases l with
    | nil => rfl
    | cons b l' =>
      exact if_pos (ha b (List.mem_cons_self b l'))

/-- The head of the descending-sorted list is an element of maximal key. -/
theorem sortKeyDesc_head_max {α : Type} {key : α → Int} {a : α} {tl : List α}
    {l : List α} (h : sortKeyDesc key l = a :: tl) :
    a ∈ l ∧ ∀ u ∈ l, key u ≤ key a := by
  constructor
  · exact mem_sortKeyDesc.mp (h ▸ List.mem_cons_self a tl)
  · intro u hu
    have hu' : u ∈ sortKeyDesc key l := mem_sortKeyDesc.mpr hu
    rw [h] at hu'
    rcases List.mem_cons.mp hu' with heq | hmem
    · exact heq ▸ le_refl _
    · have hp := @sortKeyDesc_pairwise α key l
      rw [h] at hp
      exact (List.pairwise_cons.mp hp).1 u hmem

/-- On a list sorted for `p` (later elements satisfy `p` only if earlier ones
do), `filter` and `takeWhile` agree. -/
theorem filter_eq_takeWhile_of_pairwise {α : Type} {p : α → Bool} :
    ∀ {l : List α}, l.Pairwise (fun a b => p b = true → p a = true) →
      l.filter p = l.takeWhile p := by
  intro l
  induction l with
  | nil => intro _; rfl
  | cons a l ih =>
    intro hp
    rcases List.pairwise_cons.mp hp with ⟨ha, hl⟩
    by_cases hpa : p a
    · rw [List.filter_cons_of_pos hpa, List.takeWhile_cons_of_pos hpa, ih hl]
    · rw [List.filter_cons_of_neg hpa, List.takeWhile_cons_of_neg hpa]
      exact List.filter_eq_nil_iff.mpr
        (fun b hb hpb => hpa (ha b hb hpb))

theorem mem_prepare_weibo {statuses : List WeiboStatus} {m : Option Int}
    {now : Int} {s : WeiboStatus}
    (hs : s ∈ (prepare_weibo_feed statuses m now).1) : s ∈ statuses := by
  unfold prepare_weibo_feed at hs
  by_cases hlen : statuses.length = 0
  · simp [hlen] at hs
  · simp only [if_neg hlen] at hs
    match m with
    | none =>
      exact mem_sortKeyDesc.mp (List.mem_of_mem_take hs)
    | some t =>
      exact mem_sortKeyDesc.mp (List.mem_filter.mp hs).1

theorem prepare_weibo_gt {statuses : List WeiboStatus} {t now : Int}
    {s : WeiboStatus}
    (hs : s ∈ (prepare_weibo_feed statuses (some t) now).1) : t < s.timestamp := by
  unfold prepare_weibo_feed at hs
  by_cases hlen : statuses.length = 0
  · simp [hlen] at hs
  · simp only [if_neg hlen] at hs
    have := (List.mem_filter.mp hs).2
    simpa using this

theorem prepare_weibo_marker {statuses : List WeiboStatus} {m : Option Int}
    {now : Int} (h : statuses ≠ []) :
    (prepare_weibo_feed statuses m now).2.1 = some now := by
  unfold prepare_weibo_feed
  rw [if_neg (fun hc => h (List.length_eq_zero.mp hc))]

theorem mem_prepare_bilibili {submissions : List BilibiliSubmission}
    {m : Option Int} {now : Int} {s : BilibiliSubmission}
    (hs : s ∈ (prepare_bilibili_feed submissions m now).1) : s ∈ submissions := by
  unfold prepare_bilibili_feed at hs
  by_cases hlen : submissions.length = 0
  · simp [hlen] at hs
  · simp only [if_neg hlen] at hs
    match m with
    | none =>
      exact mem_sortKeyDesc.mp (List.mem_of_mem_take hs)
    | some t =>
      exact mem_sortKeyDesc.mp (List.mem_filter.mp hs).1

theorem prepare_bilibili_marker {submissions : List BilibiliSubmission}
    {m : Option Int} {now : Int} (h : submissions ≠ []) :
    (prepare_bilibili_feed submissions m now).2.1 = some now := by
  unfold prepare_bilibili_feed
  rw [if_neg (fun hc => h (List.length_eq_zero.mp hc))]

theorem sortKeyDesc_ne_nil {α : Type} {key : α → Int} {l : List α}
    (h : l ≠ []) : sortKeyDesc key l ≠ [] := by
  intro hc
  rcases List.exists_mem_of_ne_nil l h with ⟨x, hx⟩
  have : x ∈ sortKeyDesc key l := mem_sortKeyDesc.mpr hx
  rw [hc] at this
  exact List.not_mem_nil x this

theorem youkuCollect_subset {m : String} :
    ∀ {l : List YoukuVideo} {v : YoukuVideo}, v ∈ youkuCollect m l → v ∈ l := by
  intro l
  induction l with
  | nil => intro v hv; simp [youkuCollect] at hv
  | cons x xs ih =>
    intro v hv
    by_cases hx : x.title = m
    · simp [youkuCollect, hx] at hv
    · simp only [youkuCollect, if_neg hx, List.mem_cons] at hv
      rcases hv with h | h
      · exact List.mem_cons.mpr (Or.inl h)
      · exact List.mem_cons_of_mem x (ih h)

theorem youkuCollect_eq_takeWhile (m : String) :
    ∀ l : List YoukuVideo,
      youkuCollect m l = l.takeWhile (fun v => decide (v.title ≠ m)) := by
  intro l
  induction l with
  | nil => rfl
  | cons x xs ih =>
    by_cases hx : x.title = m
    · simp [youkuCollect, hx, List.takeWhile_cons]
    · simp [youkuCollect, hx, List.takeWhile_cons, ih]

theorem youkuCollect_of_forall_ne {m : String} :
    ∀ {l : List YoukuVideo}, (∀ u ∈ l, u.title ≠ m) → youkuCollect m l = l := by
  intro l
  induction l with
  | nil => intro _; rfl
  | cons x xs ih =>
    intro hall
    have hx : x.title ≠ m := hall x (List.mem_cons_self x xs)
    simp only [youkuCollect, if_neg hx]
    rw [ih (fun u hu => hall u (List.mem_cons_of_mem x hu))]

theorem mem_prepare_youku {videos : List YoukuVideo} {m : Option String}
    {v : YoukuVideo} (hv : v ∈ (prepare_youku_feed videos m).1) : v ∈ videos := by
  unfold prepare_youku_feed at hv
  by_cases hlen : videos.length = 0
  · simp [hlen] at hv
  · simp only [if_neg hlen] at hv
    match m with
    | none => exact List.mem_of_mem_take hv
    | some k => exact youkuCollect_subset hv

theorem prepare_youku_head {a : YoukuVideo} {rest : List YoukuVideo}
    {m : Option String}
    (h : (prepare_youku_feed (a :: rest) m).1 ≠ []) :
    (prepare_youku_feed (a :: rest) m).2.1 = some a.title := by
  match m with
  | none => rfl
  | some k =>
    by_cases hk : a.title = k
    · exfalso
      apply h
      simp [prepare_youku_feed, youkuCollect, hk]
    · simp [prepare_youku_feed, youkuCollect, hk]

theorem youkuCollect_append_mem {m : String} {y : YoukuVideo} (hy : y.title = m) :
    ∀ (xs : List YoukuVideo) (ys : List YoukuVideo) {v : YoukuVideo},
      v ∈ youkuCollect m (xs ++ y :: ys) → v ∈ xs := by
  intro xs
  induction xs with
  | nil =>
    intro ys v hv
    simp [youkuCollect, hy] at hv
  | cons x xs ih =>
    intro ys v hv
    by_cases hx : x.title = m
    · simp [youkuCollect, hx] at hv
    · simp only [List.cons_append, youkuCollect, if_neg hx, List.mem_cons] at hv
      rcases hv with h | h
      · exact h ▸ List.mem_cons_self x xs
      · exact List.mem_cons_of_mem x (ih ys h)

/-- Once the weibo marker is stamped at `t`, every item delivered by any
later cycle whose wall-clock times are all at least `t` has timestamp
strictly above `t`. -/
theorem weiboPrepareRun_gt :
    ∀ (cycles : List (List WeiboStatus × Int)) (t : Int),
      (∀ cyc ∈ cycles, t ≤ cyc.2) →
      (cycles.map Prod.snd).Pairwise (fun x y => x ≤ y) →
      ∀ (i : Nat) (li : List WeiboStatus) (s : WeiboStatus),
        (weiboPrepareRun (some t) cycles)[i]? = some li → s ∈ li →
        t < s.timestamp := by
  intro cycles
  induction cycles with
  | nil =>
    intro t _ _ i li s hget _
    simp [weiboPrepareRun] at hget
  | cons cyc rest ih =>
    rcases cyc with ⟨statuses, now⟩
    intro t hle hpw i li s hget hmem
    have hnow : t ≤ now := hle (statuses, now) (List.mem_cons_self _ _)
    rw [weiboPrepareRun] at hget
    cases i with
    | zero =>
      rw [List.getElem?_cons_zero] at hget
      have hli : (prepare_weibo_feed statuses (some t) now).1 = li :=
        Option.some.inj hget
      exact prepare_weibo_gt (hli ▸ hmem)
    | succ i' =>
      rw [List.getElem?_cons_succ] at hget
      have hpw' : (rest.map Prod.snd).Pairwise (fun x y => x ≤ y) :=
        (List.pairwise_cons.mp (by simpa using hpw)).2
      by_cases hs : statuses = []
      · have hm : (prepare_weibo_feed statuses (some t) now).2.1 = some t := by
          rw [hs]; rfl
        rw [hm] at hget
        exact ih t (fun c hc => hle c (List.mem_cons_of_mem _ hc)) hpw'
          i' li s hget hmem
      · have hm : (prepare_weibo_feed statuses (some t) now).2.1 = some now :=
          prepare_weibo_marker hs
        rw [hm] at hget
        have hrest : ∀ c ∈ rest, now ≤ c.2 := by
          intro c hc
          exact (List.pairwise_cons.mp (by simpa using hpw)).1 c.2
            (List.mem_map_of_mem Prod.snd hc)
        exact lt_of_le_of_lt hnow (ih now hrest hpw' i' li s hget hmem)

/-- Across a run of weibo dedup cycles, an item delivered at cycle `i` is
never delivered again at any later cycle `j`, provided each cycle's items
carry timestamps at most that cycle's wall clock and the wall clock is
monotone. -/
theorem weiboPrepareRun_no_redelivery :
    ∀ (cycles : List (List WeiboStatus × Int)) (m : Option Int),
      (∀ cyc ∈ cycles, ∀ u ∈ cyc.1, u.timestamp ≤ cyc.2) →
      (cycles.map Prod.snd).Pairwise (fun x y => x ≤ y) →
      ∀ (i j : Nat) (li lj : List WeiboStatus) (s : WeiboStatus),
        i < j →
        (weiboPrepareRun m cycles)[i]? = some li →
        (weiboPrepareRun m cycles)[j]? = some lj →
        s ∈ li → s ∉ lj := by
  intro cycles
  induction cycles with
  | nil =>
    intro m _ _ i j li lj s _ hgi _ _
    simp [weiboPrepareRun] at hgi
  | cons cyc rest ih =>
    rcases cyc with ⟨statuses, now⟩
    intro m hts hpw i j li lj s hij hgi hgj hmem
    rw [weiboPrepareRun] at hgi hgj
    have hpw' : (rest.map Prod.snd).Pairwise (fun x y => x ≤ y) :=
      (List.pairwise_cons.mp (by simpa using hpw)).2
    cases i with
    | zero =>
      rw [List.getElem?_cons_zero] at hgi
      have hli : (prepare_weibo_feed statuses m now).1 = li :=
        Option.some.inj hgi
      have hsst : s ∈ statuses := mem_prepare_weibo (hli ▸ hmem)
      have hsnow : s.timestamp ≤ now :=
        hts (statuses, now) (List.mem_cons_self _ _) s hsst
      obtain ⟨j', rfl⟩ : ∃ j', j = j' + 1 := by
        cases j with
        | zero => omega
        | succ j' => exact ⟨j', rfl⟩
      rw [List.getElem?_cons_succ] at hgj
      have hm : (prepare_weibo_feed statuses m now).2.1 = some now :=
        prepare_weibo_marker (List.ne_nil_of_mem hsst)
      rw [hm] at hgj
      intro hcontra
      have hrest : ∀ c ∈ rest, now ≤ c.2 := by
        intro c hc
        exact (List.pairwise_cons.mp (by simpa using hpw)).1 c.2
          (List.mem_map_of_mem Prod.snd hc)
      have := weiboPrepareRun_gt rest now hrest hpw' j' lj s hgj hcontra
      omega
    | succ i' =>
      obtain ⟨j', rfl⟩ : ∃ j', j = j' + 1 := by
        cases j with
        | zero => omega
        | succ j' => exact ⟨j', rfl⟩
      rw [List.getElem?_cons_succ] at hgi hgj
      exact ih (prepare_weibo_feed statuses m now).2.1
        (fun c hc => hts c (List.mem_cons_of_mem _ hc)) hpw'
        i' j' li lj s (by omega) hgi hgj hmem

/-! ## Claim theorems -/

/-- C9: for every policy variant (weibo, bilibili, youku), an empty fetched
item sequence leaves the cursor unchanged, produces an empty digest, and
triggers no notification push (at cycle level: the cycle succeeds, the marker
is unchanged, and no push request is sent). -/
theorem C9_empty_fetch_noop :
    ∀ (m : Option Int) (mY : Option String) (now : Int) (ps : Nat),
      prepare_weibo_feed [] m now = ([], m, "") ∧
      prepare_bilibili_feed [] m now = ([], m, "") ∧
      prepare_youku_feed [] mY = ([], mY, "") ∧
      weibo_cycle ⟨some [], now, ps⟩ m = Except.ok (m, false) ∧
      bilibili_cycle ⟨some [], now, ps⟩ m = Except.ok (m, false) ∧
      youku_cycle ⟨some [], ps⟩ mY = Except.ok (mY, false) := by
  intro m mY now ps
  refine ⟨rfl, rfl, rfl, rfl, ?_, ?_⟩
  · simp [bilibili_cycle, prepare_bilibili_feed, push, renderBilibili]
  · simp [youku_cycle, prepare_youku_feed, push, renderYouku]

/-- C6: for the threshold-since policies (weibo, bilibili), every call with a
non-empty item list sets the cursor to the wall-clock time `now` — not to any
item timestamp — independently of the filtering result. -/
theorem C6_threshold_stamps_wall_clock :
    ∀ (statuses : List WeiboStatus) (submissions : List BilibiliSubmission)
      (m m2 : Option Int) (now now2 : Int),
      (statuses ≠ [] → (prepare_weibo_feed statuses m now).2.1 = some now) ∧
      (submissions ≠ [] →
        (prepare_bilibili_feed submissions m2 now2).2.1 = some now2) := by
  intro statuses submissions m m2 now now2
  exact ⟨fun h => prepare_weibo_marker h, fun h => prepare_bilibili_marker h⟩

/-- Witness for C6: one status with timestamp 5, cursor already at 10, so the
filtered new-item set is empty — yet the cursor is stamped to the wall-clock
time 123 (which is not the maximum item timestamp). -/
theorem C6_threshold_stamps_wall_clock_witness :
    (prepare_weibo_feed [⟨5, "a"⟩] (some 10) 123).2.1 = some 123 ∧
    (prepare_bilibili_feed [⟨7, "t"⟩] (some 10) 123).2.1 = some 123 := by
  have h := C6_threshold_stamps_wall_clock [⟨5, "a"⟩] [⟨7, "t"⟩]
    (some 10) (some 10) 123 123
  exact ⟨h.1 (by decide), h.2 (by decide)⟩

/-- C7: the boundary-scan policy (youku).  (a) On items `[k1,k2,k3,k4]` with
cursor `k3`, the new items are exactly `[k1,k2]` and the cursor becomes `k1`.
(b) In general the scan stops at the first position whose title equals the
cursor, exclusive: the new-item list is the `takeWhile` of titles different
from the cursor.  (c) The cursor is left unchanged whenever zero new items
are collected. -/
theorem C7_boundary_scan :
    (∀ a b c d : YoukuVideo, a.title ≠ c.title → b.title ≠ c.title →
      (prepare_youku_feed [a, b, c, d] (some c.title)).1 = [a, b] ∧
      (prepare_youku_feed [a, b, c, d] (some c.title)).2.1 = some a.title) ∧
    (∀ (videos : List YoukuVideo) (m : String),
      (prepare_youku_feed videos (some m)).1
        = videos.takeWhile (fun v => decide (v.title ≠ m))) ∧
    (∀ (videos : List YoukuVideo) (marker : Option String),
      (prepare_youku_feed videos marker).1 = [] →
      (prepare_youku_feed videos marker).2.1 = marker) := by
  refine ⟨?_, ?_, ?_⟩
  · intro a b c d ha hb
    constructor
    · simp [prepare_youku_feed, youkuCollect, ha, hb]
    · simp [prepare_youku_feed, youkuCollect, ha, hb]
  · intro videos m
    cases videos with
    | nil => rfl
    | cons v rest =>
      unfold prepare_youku_feed
      rw [if_neg (by simp)]
      exact youkuCollect_eq_takeWhile m (v :: rest)
  · intro videos marker hnil
    unfold prepare_youku_feed at hnil ⊢
    by_cases hlen : videos.length = 0
    · rw [if_pos hlen]
    · rw [if_neg hlen] at hnil ⊢
      dsimp only at hnil ⊢
      rw [hnil]

/-- Witness for C7: the boundary-scan example with concrete titles, plus a
zero-new-items run (cursor at the head title) leaving the cursor unchanged. -/
theorem C7_boundary_scan_witness :
    ((prepare_youku_feed
        [⟨"k1", "l1"⟩, ⟨"k2", "l2"⟩, ⟨"k3", "l3"⟩, ⟨"k4", "l4"⟩]
        (some "k3")).1 = [⟨"k1", "l1"⟩, ⟨"k2", "l2"⟩] ∧
      (prepare_youku_feed
        [⟨"k1", "l1"⟩, ⟨"k2", "l2"⟩, ⟨"k3", "l3"⟩, ⟨"k4", "l4"⟩]
        (some "k3")).2.1 = some "k1") ∧
    (prepare_youku_feed [⟨"k1", "l1"⟩, ⟨"k2", "l2"⟩] (some "k1")).2.1
      = some "k1" := by
  constructor
  · exact C7_boundary_scan.1 ⟨"k1", "l1"⟩ ⟨"k2", "l2"⟩ ⟨"k3", "l3"⟩ ⟨"k4", "l4"⟩
      (by decide) (by decide)
  · exact C7_boundary_scan.2.2 [⟨"k1", "l1"⟩, ⟨"k2", "l2"⟩] (some "k1")
      (by decide)

/-- C5: cold start — for every non-empty fetched item sequence and an unset
cursor, each policy variant returns exactly one new item, the head of the
descending-sorted input (an item of maximal timestamp for the threshold
policies; the first fetched item for youku, whose input order is the fetch
order). -/
theorem C5_cold_start :
    (∀ (statuses : List WeiboStatus) (now : Int), statuses ≠ [] →
      ∃ s, (prepare_weibo_feed statuses none now).1 = [s] ∧ s ∈ statuses ∧
        ∀ u ∈ statuses, u.timestamp ≤ s.timestamp) ∧
    (∀ (submissions : List BilibiliSubmission) (now : Int), submissions ≠ [] →
      ∃ s, (prepare_bilibili_feed submissions none now).1 = [s] ∧
        s ∈ submissions ∧
        ∀ u ∈ submissions, u.timestamp ≤ s.timestamp) ∧
    (∀ (v : YoukuVideo) (rest : List YoukuVideo),
      (prepare_youku_feed (v :: rest) none).1 = [v]) := by
  refine ⟨?_, ?_, ?_⟩
  · intro statuses now h
    unfold prepare_weibo_feed
    rw [if_neg (fun hc => h (List.length_eq_zero.mp hc))]
    dsimp only
    cases hsort : sortWeiboDesc statuses with
    | nil => exact absurd hsort (sortKeyDesc_ne_nil h)
    | cons a tl =>
      rcases sortKeyDesc_head_max hsort with ⟨hmem, hmax⟩
      exact ⟨a, rfl, hmem, hmax⟩
  · intro submissions now h
    unfold prepare_bilibili_feed
    rw [if_neg (fun hc => h (List.length_eq_zero.mp hc))]
    dsimp only
    cases hsort : sortBilibiliDesc submissions with
    | nil => exact absurd hsort (sortKeyDesc_ne_nil h)
    | cons a tl =>
      rcases sortKeyDesc_head_max hsort with ⟨hmem, hmax⟩
      exact ⟨a, rfl, hmem, hmax⟩
  · intro v rest
    rfl

/-- Witness for C5: three out-of-order statuses, one submission, two videos —
one new item each. -/
theorem C5_cold_start_witness :
    (∃ s, (prepare_weibo_feed [⟨100, "a"⟩, ⟨300, "b"⟩, ⟨200, "c"⟩] none 999).1
        = [s] ∧ s ∈ [⟨100, "a"⟩, ⟨300, "b"⟩, ⟨200, "c"⟩] ∧
        ∀ u ∈ [(⟨100, "a"⟩ : WeiboStatus), ⟨300, "b"⟩, ⟨200, "c"⟩],
          u.timestamp ≤ s.timestamp) ∧
    (∃ s, (prepare_bilibili_feed [⟨7, "t"⟩] none 999).1 = [s] ∧
        s ∈ [(⟨7, "t"⟩ : BilibiliSubmission)] ∧
        ∀ u ∈ [(⟨7, "t"⟩ : BilibiliSubmission)],
          u.timestamp ≤ s.timestamp) ∧
    (prepare_youku_feed [⟨"k1", "l1"⟩, ⟨"k2", "l2"⟩] none).1
      = [⟨"k1", "l1"⟩] := by
  refine ⟨?_, ?_, ?_⟩
  · exact C5_cold_start.1 [⟨100, "a"⟩, ⟨300, "b"⟩, ⟨200, "c"⟩] 999 (by decide)
  · exact C5_cold_start.2.1 [⟨7, "t"⟩] 999 (by decide)
  · exact C5_cold_start.2.2 ⟨"k1", "l1"⟩ [⟨"k2", "l2"⟩]

/-- C4: for the threshold-since policies (weibo, bilibili), given a set cursor
`c` and an item list already strictly descending by timestamp, the new-item
set is exactly the prefix of items with `timestamp > c` (a `takeWhile`), and
it is empty when `c` is at least the first (maximal) timestamp. -/
theorem C4_threshold_prefix :
    ∀ (statuses : List WeiboStatus) (submissions : List BilibiliSubmission)
      (c now : Int),
      statuses.Pairwise (fun a b => a.timestamp > b.timestamp) →
      submissions.Pairwise (fun a b => a.timestamp > b.timestamp) →
      (((prepare_weibo_feed statuses (some c) now).1
          = statuses.takeWhile (fun s => decide (s.timestamp > c))) ∧
        (∀ s1, statuses.head? = some s1 → s1.timestamp ≤ c →
          (prepare_weibo_feed statuses (some c) now).1 = [])) ∧
      (((prepare_bilibili_feed submissions (some c) now).1
          = submissions.takeWhile (fun s => decide (s.timestamp > c))) ∧
        (∀ s1, submissions.head? = some s1 → s1.timestamp ≤ c →
          (prepare_bilibili_feed submissions (some c) now).1 = [])) := by
  intro statuses submissions c now hpw hpb
  have weiboEq : (prepare_weibo_feed statuses (some c) now).1
      = statuses.takeWhile (fun s => decide (s.timestamp > c)) := by
    cases statuses with
    | nil => rfl
    | cons x xs =>
      unfold prepare_weibo_feed
      rw [if_neg (by simp)]
      dsimp only
      rw [show sortWeiboDesc (x :: xs) = x :: xs from
        sortKeyDesc_eq_self (hpw.imp (fun h => le_of_lt h))]
      exact filter_eq_takeWhile_of_pairwise
        (hpw.imp (fun h hb => by
          simp only [decide_eq_true_eq] at hb ⊢
          omega))
  have biliEq : (prepare_bilibili_feed submissions (some c) now).1
      = submissions.takeWhile (fun s => decide (s.timestamp > c)) := by
    cases submissions with
    | nil => rfl
    | cons x xs =>
      unfold prepare_bilibili_feed
      rw [if_neg (by simp)]
      dsimp only
      rw [show sortBilibiliDesc (x :: xs) = x :: xs from
        sortKeyDesc_eq_self (hpb.imp (fun h => le_of_lt h))]
      exact filter_eq_takeWhile_of_pairwise
        (hpb.imp (fun h hb => by
          simp only [decide_eq_true_eq] at hb ⊢
          omega))
  refine ⟨⟨weiboEq, ?_⟩, biliEq, ?_⟩
  · intro s1 hhead hle
    cases statuses with
    | nil => simp at hhead
    | cons x xs =>
      have hx : x = s1 := by simpa using hhead
      rw [weiboEq, List.takeWhile_cons_of_neg]
      simp only [decide_eq_true_eq, not_lt]
      rw [hx]
      exact hle
  · intro s1 hhead hle
    cases submissions with
    | nil => simp at hhead
    | cons x xs =>
      have hx : x = s1 := by simpa using hhead
      rw [biliEq, List.takeWhile_cons_of_neg]
      simp only [decide_eq_true_eq, not_lt]
      rw [hx]
      exact hle

/-- Witness for C4: a strictly descending list `[30,20,10]` with cursor 15
gives the prefix `[30,20]`; with cursor 35 (at least the head) the result is
empty. -/
theorem C4_threshold_prefix_witness :
    (prepare_weibo_feed [⟨30, "a"⟩, ⟨20, "b"⟩, ⟨10, "c"⟩] (some 15) 99).1
      = [⟨30, "a"⟩, ⟨20, "b"⟩] ∧
    (prepare_bilibili_feed [⟨30, "t"⟩, ⟨20, "u"⟩] (some 35) 99).1 = [] := by
  have h1 := C4_threshold_prefix [⟨30, "a"⟩, ⟨20, "b"⟩, ⟨10, "c"⟩]
    [⟨30, "t"⟩, ⟨20, "u"⟩] 15 99 (by decide) (by decide)
  have h2 := C4_threshold_prefix [⟨30, "a"⟩, ⟨20, "b"⟩, ⟨10, "c"⟩]
    [⟨30, "t"⟩, ⟨20, "u"⟩] 35 99 (by decide) (by decide)
  constructor
  · rw [h1.1.1]
    decide
  · exact h2.2.2 ⟨30, "t"⟩ rfl (by decide)

/-- C10 (implicit, boundary-scan no-match): for the youku policy, a non-empty
item list whose titles all differ from the set cursor yields all fetched items
as new, and the cursor becomes the first item's title. -/
theorem C10_boundary_scan_no_match :
    ∀ (v : YoukuVideo) (rest : List YoukuVideo) (m : String),
      (∀ u ∈ v :: rest, u.title ≠ m) →
      (prepare_youku_feed (v :: rest) (some m)).1 = v :: rest ∧
      (prepare_youku_feed (v :: rest) (some m)).2.1 = some v.title := by
  intro v rest m hall
  have hcol : youkuCollect m (v :: rest) = v :: rest :=
    youkuCollect_of_forall_ne hall
  simp [prepare_youku_feed, hcol]

/-- Witness for C10: two videos, cursor title matching neither. -/
theorem C10_boundary_scan_no_match_witness :
    (prepare_youku_feed [⟨"k1", "l1"⟩, ⟨"k2", "l2"⟩] (some "kX")).1
      = [⟨"k1", "l1"⟩, ⟨"k2", "l2"⟩] ∧
    (prepare_youku_feed [⟨"k1", "l1"⟩, ⟨"k2", "l2"⟩] (some "kX")).2.1
      = some "k1" := by
  exact C10_boundary_scan_no_match ⟨"k1", "l1"⟩ [⟨"k2", "l2"⟩] "kX" (by decide)

/-- C1 (code-bug evaluation at the failing input: a failed fetch).  The weibo
cycle treats a failed fetch (`None`) as a logged no-op and its loop keeps
running, but the bilibili and youku tasks iterate the `None` returned by
their fetch helpers, raising an uncaught `TypeError` that terminates the
loop: with a failed fetch followed by a healthy cycle, zero cycles complete
and the loop dies. -/
theorem C1_fetch_failure_divergence :
    weibo_cycle ⟨none, 100, 204⟩ (some 5) = Except.ok (some 5, false) ∧
    weibo_loop none [⟨none, 100, 204⟩, ⟨some [⟨1, "a"⟩], 200, 204⟩]
      = (2, none) ∧
    bilibili_cycle ⟨none, 100, 204⟩ (some 5) = Except.error PyExc.typeError ∧
    youku_cycle ⟨none, 204⟩ (some "k") = Except.error PyExc.typeError ∧
    bilibili_loop none [⟨none, 100, 204⟩, ⟨some [⟨1, "t"⟩], 200, 204⟩]
      = (0, some PyExc.typeError) ∧
    youku_loop none [⟨none, 204⟩, ⟨some [⟨"k", "l"⟩], 204⟩]
      = (0, some PyExc.typeError) := by
  refine ⟨rfl, rfl, rfl, rfl, rfl, rfl⟩

/-- C2 counterexample: a non-success (HTTP 500) response from the push
endpoint is not caught inside the cycle — the cycle itself evaluates to a
raised `HTTPStatusError`, and in a two-cycle run the loop terminates with
zero completed cycles, so the next cycle never runs, contrary to the claim. -/
theorem C2_push_failure_counterexample :
    weibo_cycle ⟨some [⟨1, "a"⟩], 100, 500⟩ none
      = Except.error (PyExc.httpStatusError 500) ∧
    weibo_loop none
      [⟨some [⟨1, "a"⟩], 100, 500⟩, ⟨some [⟨2, "b"⟩], 200, 204⟩]
      = (0, some (PyExc.httpStatusError 500)) := by
  refine ⟨rfl, rfl⟩

/-- C2 (amended): push failures are not caught anywhere.  Whenever a cycle's
fetch succeeds with a non-empty item list whose rendered feed is non-empty
and the push endpoint answers non-2xx, the `HTTPStatusError` raised by
`raise_for_status` propagates out of `push` and out of the cycle, and the
poll loop terminates with zero completed cycles — no subsequent cycle runs. -/
theorem C2_push_failure_fatal :
    ∀ (s0 : WeiboStatus) (stail : List WeiboStatus) (m : Option Int)
      (now : Int) (ps : Nat) (rest : List WeiboCycleEnv),
      (prepare_weibo_feed (s0 :: stail) m now).2.2 ≠ "" →
      ¬(200 ≤ ps ∧ ps < 300) →
      weibo_cycle ⟨some (s0 :: stail), now, ps⟩ m
        = Except.error (PyExc.httpStatusError ps) ∧
      weibo_loop m (⟨some (s0 :: stail), now, ps⟩ :: rest)
        = (0, some (PyExc.httpStatusError ps)) := by
  intro s0 stail m now ps rest hfeed hps
  have hpush : push ps (prepare_weibo_feed (s0 :: stail) m now).2.2
      = Except.error (PyExc.httpStatusError ps) := by
    unfold push raise_for_status
    rw [if_neg hfeed, if_neg hps]
    rfl
  have hcycle : weibo_cycle ⟨some (s0 :: stail), now, ps⟩ m
      = Except.error (PyExc.httpStatusError ps) := by
    unfold weibo_cycle
    dsimp only
    rw [hpush]
  refine ⟨hcycle, ?_⟩
  unfold weibo_loop
  rw [hcycle]

/-- Witness for C2's amended theorem: one status, push endpoint answering
HTTP 500, an empty remainder of the schedule. -/
theorem C2_push_failure_fatal_witness :
    weibo_cycle ⟨some [⟨3, "c"⟩], 400, 500⟩ (some 1)
      = Except.error (PyExc.httpStatusError 500) ∧
    weibo_loop (some 1) [⟨some [⟨3, "c"⟩], 400, 500⟩]
      = (0, some (PyExc.httpStatusError 500)) :=
  C2_push_failure_fatal ⟨3, "c"⟩ [] (some 1) 400 500 [] (by decide) (by decide)

/-- C8: across successive cycles of one poll loop, an item delivered as new
in an earlier cycle is never delivered again in a later cycle.
Threshold-since (weibo; bilibili is the same code): holds over any run of
cycles, provided every fetched item's timestamp is at most the wall-clock
time at which that cycle stamps the cursor and the wall clock is monotone.
Boundary-scan (youku): holds for consecutive cycles whose fetch order is
stable — the later fetch is some genuinely fresh items (not present in the
earlier fetch) in front of the earlier head item. -/
theorem C8_no_redelivery :
    (∀ (cycles : List (List WeiboStatus × Int)) (m : Option Int)
        (i j : Nat) (li lj : List WeiboStatus) (s : WeiboStatus),
      (∀ cyc ∈ cycles, ∀ u ∈ cyc.1, u.timestamp ≤ cyc.2) →
      (cycles.map Prod.snd).Pairwise (fun x y => x ≤ y) →
      i < j →
      (weiboPrepareRun m cycles)[i]? = some li →
      (weiboPrepareRun m cycles)[j]? = some lj →
      s ∈ li → s ∉ lj) ∧
    (∀ (a : YoukuVideo) (rest1 fresh tail2 : List YoukuVideo)
        (m : Option String) (v : YoukuVideo),
      (∀ u ∈ fresh, u ∉ a :: rest1) →
      v ∈ (prepare_youku_feed (a :: rest1) m).1 →
      v ∉ (prepare_youku_feed (fresh ++ a :: tail2)
            (prepare_youku_feed (a :: rest1) m).2.1).1) := by
  constructor
  · intro cycles m i j li lj s h1 h2 h3 h4 h5 h6
    exact weiboPrepareRun_no_redelivery cycles m h1 h2 i j li lj s h3 h4 h5 h6
  · intro a rest1 fresh tail2 m v hfresh hv hcontra
    have hne : (prepare_youku_feed (a :: rest1) m).1 ≠ [] :=
      List.ne_nil_of_mem hv
    have hm1 : (prepare_youku_feed (a :: rest1) m).2.1 = some a.title :=
      prepare_youku_head hne
    have hvin : v ∈ a :: rest1 := mem_prepare_youku hv
    rw [hm1] at hcontra
    have hcol : v ∈ youkuCollect a.title (fresh ++ a :: tail2) := by
      unfold prepare_youku_feed at hcontra
      rw [if_neg (by simp)] at hcontra
      exact hcontra
    exact hfresh v (youkuCollect_append_mem rfl fresh tail2 hcol) hvin

/-- Witness for C8: a two-cycle weibo run (cold start then a fetch with one
old and one new item) never re-delivers the old item; a youku cycle pair with
one fresh video in front of the previous head never re-delivers the
previously delivered video. -/
theorem C8_no_redelivery_witness :
    ((⟨1, "a"⟩ : WeiboStatus) ∉ [(⟨20, "b"⟩ : WeiboStatus)]) ∧
    ((⟨"k1", "l"⟩ : YoukuVideo) ∉
      (prepare_youku_feed [⟨"k0", "l"⟩, ⟨"k1", "l"⟩, ⟨"k2", "l"⟩]
        (prepare_youku_feed [⟨"k1", "l"⟩, ⟨"k2", "l"⟩] none).2.1).1) := by
  constructor
  · exact C8_no_redelivery.1
      [([⟨1, "a"⟩], 10), ([⟨1, "a"⟩, ⟨20, "b"⟩], 30)] none 0 1
      [⟨1, "a"⟩] [⟨20, "b"⟩] ⟨1, "a"⟩
      (by decide) (by decide) (by decide) (by decide) (by decide) (by decide)
  · exact C8_no_redelivery.2 ⟨"k1", "l"⟩ [⟨"k2", "l"⟩] [⟨"k0", "l"⟩]
      [⟨"k2", "l"⟩] none ⟨"k1", "l"⟩ (by decide) (by decide)

end MyFeeds
